import Mathlib

/-!
Verification of the go-fat repository: a minimal FAT-style filesystem inside a
single flat backing store.  The Go source (src/disk/disk.go, src/unnamed/part_000)
is shallowly embedded below.  Bytes are `Nat` values (< 256 on every path the
code can produce), the backing file is a total function from byte address to
byte together with its current length, and every mutating operation threads the
`Disk` state explicitly (in Go the mutation happens through the `*os.File`
handle).  Go's `ReadAt` into a fresh buffer is modelled by reading the function
at an offset; Go's `WriteAt` of a buffer is modelled by overlaying the buffer on
an address interval.  Machine integers: the code only ever stores values through
`binary.LittleEndian.PutUint16` / `PutUint32` and single-byte writes, which we
model with explicit `% 256` / `% 65536` truncation at the store boundary.

File handles (`File.Read` / `File.Write` / `File.Close`) are declared in the
repository but their source file is not part of src/ (the tests in
src/disk/file_test.go call them and the spec says the Read/Write bodies are
unimplemented stubs); those operations are modelled from the spec, each marked
`Modelled from the spec:` in its doc comment.
-/

namespace GoFat

/-- Error values of the repository (src/unnamed/part_000); one tagged variant
per concrete Go error type, plus the two error kinds the spec adds
(`formatError`, `corruption`). -/
inductive GoErr where
  | custom : GoErr
  | memberUndefined : GoErr
  | invalidFilename : List Nat → GoErr
  | fileAlreadyInUse : List Nat → GoErr
  | fileAlreadyExists : List Nat → GoErr
  | fileNotFound : List Nat → GoErr
  | fileNotOpen : List Nat → GoErr
  | fullDisk : GoErr
  | rootDirFull : GoErr
  | formatError : GoErr
  | corruption : GoErr
  deriving DecidableEq, Repr

/-- Result of a fallible Go call: `ok v` for `(v, nil)`, `err e` for a non-nil
error return. -/
inductive Res (α : Type) where
  | ok : α → Res α
  | err : GoErr → Res α
  deriving DecidableEq, Repr

/-- The backing store (the disk file behind the `*os.File` handle): a total
byte function plus the current file length.  Bytes past `size` read as `0`,
matching a zero-filled sparse read of a fresh file. -/
structure Store where
  bytes : Nat → Nat
  size : Nat

/-- Single-byte update of a byte function. -/
def upd (f : Nat → Nat) (i v : Nat) : Nat → Nat :=
  fun a => if a = i then v else f a

/-- `binary.LittleEndian.PutUint16`: low byte first. -/
def putU16 (f : Nat → Nat) (off v : Nat) : Nat → Nat :=
  upd (upd f off (v % 256)) (off + 1) (v / 256 % 256)

/-- `binary.LittleEndian.Uint16` over a byte function. -/
def getU16 (f : Nat → Nat) (off : Nat) : Nat :=
  f off + 256 * f (off + 1)

/-- `binary.LittleEndian.PutUint32`: low byte first. -/
def putU32 (f : Nat → Nat) (off v : Nat) : Nat → Nat :=
  upd (upd (upd (upd f off (v % 256)) (off + 1) (v / 256 % 256))
    (off + 2) (v / 65536 % 256)) (off + 3) (v / 16777216 % 256)

/-- `binary.LittleEndian.Uint32` over a byte function. -/
def getU32 (f : Nat → Nat) (off : Nat) : Nat :=
  f off + 256 * f (off + 1) + 65536 * f (off + 2) + 16777216 * f (off + 3)

/-- Go `copy(dst[off:off+len], src)`: overlay `len` bytes of `src` starting at
`off`, keeping the rest of `dst`. -/
def copySlice (f : Nat → Nat) (off : Nat) (src : List Nat) (len : Nat) : Nat → Nat :=
  fun a => if off ≤ a ∧ a < off + len then src.getD (a - off) 0 else f a

/-- `fd.WriteAt(buf, off)` for a buffer of length `len` given as a byte
function: overlay the buffer on `[off, off+len)` and extend the file length. -/
def writeAt (s : Store) (off len : Nat) (buf : Nat → Nat) : Store :=
  ⟨fun a => if off ≤ a ∧ a < off + len then buf (a - off) else s.bytes a,
   max s.size (off + len)⟩

/-- `fd.ReadAt(buf, off)`: the buffer seen as a byte function. -/
def readBuf (s : Store) (off : Nat) : Nat → Nat :=
  fun i => s.bytes (off + i)

/-- `BlockSize = 4096`. -/
def BlockSize : Nat := 4096

/-- `FatEoc = 0xFFFF`. -/
def FatEoc : Nat := 65535

/-- The bytes of the signature string `SbSig = "NEWFATFS"`. -/
def sbSigBytes : List Nat := [78, 69, 87, 70, 65, 84, 70, 83]

/-- The `Disk` structure (src/disk/disk.go lines 35-44).  The `fd` field is the
threaded `store`; the Go field `open` (a `map[string]bool`, renamed here since
`open` is a Lean keyword) is `none` when the map is nil — a Go map that is nil
reads as empty but panics on assignment — and `some reg` when initialized,
where `reg` lists the names currently marked open. -/
structure Disk where
  store : Store
  sig : List Nat
  blockCt : Nat
  rootDirInd : Nat
  dataStartInd : Nat
  dataBlockCt : Nat
  fatBlockCt : Nat
  openNames : Option (List (List Nat))

/-- The `File` structure: name, root-directory descriptor, cursor, cached size.
The Go field `disk` (a pointer back to the volume) is threaded explicitly. -/
structure File where
  name : List Nat
  desc : Nat
  offset : Nat
  size : Nat
  deriving DecidableEq, Repr

/-- `createDisk` (disk.go lines 130-146): empty-name check, `os.Create` of a
fresh zero-length file, `open: make(map[string]bool)`. -/
def createDisk (filename : List Nat) (dataBlocks : Nat) : Res Disk :=
  if filename = [] then .err (.invalidFilename filename)
  else .ok { store := ⟨fun _ => 0, 0⟩, sig := [], blockCt := 0, rootDirInd := 0,
             dataStartInd := 0, dataBlockCt := dataBlocks, fatBlockCt := 0,
             openNames := some [] }

/-- The superblock buffer built by `initSuperblock` (disk.go lines 173-192)
from the field values it writes: a zeroed 4096-byte block, the 8 signature
bytes copied to offset 0, then the little-endian fields at offsets 8, 10, 12,
14 and the single `fatBlockCt` byte at 16.  The Go `uint16(...)` and
`byte(...)` casts are the `% 65536` / `% 256` truncations. -/
def encodeSuperblockBytes (blockCt rootDirInd dataStartInd dataBlockCt fatBlockCt : Nat) :
    Nat → Nat :=
  upd (putU16 (putU16 (putU16 (putU16 (copySlice (fun _ => 0) 0 sbSigBytes 8)
    8 (blockCt % 65536)) 10 (rootDirInd % 65536)) 12 (dataStartInd % 65536))
    14 (dataBlockCt % 65536)) 16 (fatBlockCt % 256)

/-- Number of FAT blocks computed by `initFS`/`initSuperblock`:
`int(math.Ceil((2 * float64(dataBlockCt)) / 4096))`.  For every `dataBlockCt`
in `int` range the float computation is exact (a product of 2 and a division by
a power of two below 2^53), so it equals the natural-number ceiling
`(2 * dataBlockCt + 4095) / 4096`. -/
def numFatBlocks (dataBlockCt : Nat) : Nat :=
  (2 * dataBlockCt + 4095) / 4096

/-- `initSuperblock` (disk.go lines 167-200): computes the layout from
`dataBlockCt`, stores it in the struct fields, and writes the encoded 4096-byte
superblock at offset 0. -/
def initSuperblock (d : Disk) : Disk :=
  let numFatBlks := numFatBlocks d.dataBlockCt
  let numBlks := 2 + numFatBlks + d.dataBlockCt
  let d' := { d with sig := sbSigBytes, blockCt := numBlks,
                     rootDirInd := 1 + numFatBlks, dataStartInd := 2 + numFatBlks,
                     fatBlockCt := numFatBlks }
  let sb := encodeSuperblockBytes d'.blockCt d'.rootDirInd d'.dataStartInd
    d'.dataBlockCt d'.fatBlockCt
  { d' with store := writeAt d'.store 0 BlockSize sb }

/-- `initFS` (disk.go lines 150-163): zero-fill the whole volume
(`fd.Write(make([]byte, numTotalBlks*BlockSize))` at position 0 of the fresh
file), then write the superblock. -/
def initFS (d : Disk) : Disk :=
  let numFatBlks := numFatBlocks d.dataBlockCt
  let numTotalBlks := 2 + numFatBlks + d.dataBlockCt
  initSuperblock { d with store := writeAt d.store 0 (numTotalBlks * BlockSize) (fun _ => 0) }

/-- `New` (disk.go lines 48-59). -/
def New (filename : List Nat) (dataBlocks : Nat) : Res Disk :=
  match createDisk filename dataBlocks with
  | .err e => .err e
  | .ok d => .ok (initFS d)

/-- The field unpacking of `readSuperblock` (disk.go lines 210-224): the 8
signature bytes (via `strings.Builder`), the little-endian u16 fields at
offsets 8, 10, 12, 14 and the single byte at 16, in struct-field order
`(sig, blockCt, rootDirInd, dataStartInd, dataBlockCt, fatBlockCt)`. -/
def decodeSuperblockFields (buf : Nat → Nat) : List Nat × Nat × Nat × Nat × Nat × Nat :=
  ((List.range 8).map buf, getU16 buf 8, getU16 buf 10, getU16 buf 12, getU16 buf 14, buf 16)

/-- `readSuperblock` (disk.go lines 202-227): read block 0 and unpack every
field.  Note: no comparison of the signature against `SbSig` is performed. -/
def readSuperblock (d : Disk) : Disk :=
  match decodeSuperblockFields (readBuf d.store 0) with
  | (sig, blockCt, rootDirInd, dataStartInd, dataBlockCt, fatBlockCt) =>
    { d with sig := sig, blockCt := blockCt, rootDirInd := rootDirInd,
             dataStartInd := dataStartInd, dataBlockCt := dataBlockCt,
             fatBlockCt := fatBlockCt }

/-- `Mount` (disk.go lines 63-81): empty-name check, open the backing file,
build `Disk{fd: fd}` — all other fields zero and the open map nil — and read
the superblock.  `readSuperblock` cannot fail in the model (its only Go error
path is an I/O error). -/
def Mount (filename : List Nat) (s : Store) : Res Disk :=
  if filename = [] then .err (.invalidFilename filename)
  else .ok (readSuperblock { store := s, sig := [], blockCt := 0, rootDirInd := 0,
                             dataStartInd := 0, dataBlockCt := 0, fatBlockCt := 0,
                             openNames := none })

/-- The scan loop of `initFatChain` (disk.go lines 235-244): step through the
FAT buffer two bytes at a time, returning the first byte index `i` whose
little-endian 16-bit value is `0`.  `cnt` is the number of entries left
(`len(fatBuff)/2` at the top-level call). -/
def scanFatFree (buf : Nat → Nat) : Nat → Nat → Option Nat
  | _, 0 => none
  | i, cnt + 1 => if getU16 buf i = 0 then some i else scanFatFree buf (i + 2) cnt

/-- `initFatChain` (disk.go lines 231-246): read the whole FAT region into a
buffer, find the first free entry, overwrite it with `FatEoc`, write the whole
buffer back at offset `BlockSize`, and return the byte index `i` at which the
scan stopped.  With no free entry: `FullDiskError`. -/
def initFatChain (d : Disk) : Disk × Res Nat :=
  let fatLen := d.fatBlockCt * BlockSize
  let fatBuff := readBuf d.store BlockSize
  match scanFatFree fatBuff 0 (fatLen / 2) with
  | none => (d, .err .fullDisk)
  | some i =>
    ({ d with store := writeAt d.store BlockSize fatLen (putU16 fatBuff i FatEoc) }, .ok i)

/-- The 16 filename bytes of the root-directory entry starting at byte index
`i` of the root block (the `strings.Builder` of `rootEntry[:16]`). -/
def entryNameBytes (buf : Nat → Nat) (i : Nat) : List Nat :=
  (List.range 16).map (fun j => buf (i + j))

/-- The scan loop of `initRootEntry` (disk.go lines 255-276): step through the
root block 32 bytes at a time; a zero first byte is a free slot (return its
byte index), a non-free entry whose raw 16 filename bytes equal `filename`
is a duplicate. -/
def scanRootCreate (buf : Nat → Nat) (filename : List Nat) : Nat → Nat → Res Nat
  | _, 0 => .err .rootDirFull
  | i, cnt + 1 =>
    if buf i = 0 then .ok i
    else if entryNameBytes buf i = filename then .err (.fileAlreadyExists filename)
    else scanRootCreate buf filename (i + 32) cnt

/-- `initRootEntry` (disk.go lines 251-278): read the root block, scan for a
free slot or a duplicate name; on a free slot at byte index `i` copy the
filename (`copy` moves `min 16 filename.length` bytes), put the 16-bit
`startBlock` at `i + 20`, write the block back, and return `i`. -/
def initRootEntry (d : Disk) (filename : List Nat) (startBlock : Nat) : Disk × Res Nat :=
  let offset := d.rootDirInd * BlockSize
  let rootBuff := readBuf d.store offset
  match scanRootCreate rootBuff filename 0 (BlockSize / 32) with
  | .err e => (d, .err e)
  | .ok i =>
    let b1 := copySlice rootBuff i filename (min 16 filename.length)
    let b2 := putU16 b1 (i + 20) (startBlock % 65536)
    ({ d with store := writeAt d.store offset BlockSize b2 }, .ok i)

/-- `Disk.Create` (disk.go lines 83-103): allocate a FAT chain head, create the
root entry, then mark the file open via `d.open[filename] = true`.  The outer
`Option` is `none` exactly when that map assignment panics because the map is
nil (which Mount leaves it as). -/
def Create (d : Disk) (filename : List Nat) : Option (Disk × Res File) :=
  match initFatChain d with
  | (d1, .err e) => some (d1, .err e)
  | (d1, .ok blockInd) =>
    match initRootEntry d1 filename blockInd with
    | (d2, .err e) => some (d2, .err e)
    | (d2, .ok rootInd) =>
      match d2.openNames with
      | none => none
      | some m =>
        some ({ d2 with openNames := some (filename :: m) },
              .ok { name := filename, desc := rootInd, offset := 0, size := 0 })

/-- `checkIsOpen` (disk.go lines 280-284); reading a nil map yields the zero
value, so a nil registry reports every file closed. -/
def checkIsOpen (d : Disk) (filename : List Nat) : Bool :=
  match d.openNames with
  | none => false
  | some m => m.contains filename

/-- `strings.Trim(s, "\x00")` used by `loadRootEntry`: drop zero bytes from
both ends. -/
def dropLeadingZeros : List Nat → List Nat
  | [] => []
  | b :: rest => if b = 0 then dropLeadingZeros rest else b :: rest

/-- Trim zero bytes from both ends of a byte list. -/
def trimNulls (l : List Nat) : List Nat :=
  ((dropLeadingZeros ((dropLeadingZeros l).reverse)).reverse)

/-- The scan loop of `loadRootEntry` (disk.go lines 298-313): at the first
entry whose trimmed filename equals the query, return its size (u32 at
`i + 16`) and start block (u16 at `i + 20`). -/
def scanRootLoad (buf : Nat → Nat) (name : List Nat) : Nat → Nat → Option (Nat × Nat)
  | _, 0 => none
  | i, cnt + 1 =>
    if trimNulls (entryNameBytes buf i) = name then some (getU32 buf (i + 16), getU16 buf (i + 20))
    else scanRootLoad buf name (i + 32) cnt

/-- `loadRootEntry` (disk.go lines 286-315).  The nil-pointer guard on the
`File` argument has no counterpart in the model (the argument is a value). -/
def loadRootEntry (d : Disk) (f : File) : Res File :=
  if f.name = [] then .err .custom
  else
    let buf := readBuf d.store (d.rootDirInd * BlockSize)
    match scanRootLoad buf f.name 0 (BlockSize / 32) with
    | some (sz, blk) => .ok { f with size := sz, desc := blk }
    | none => .err (.fileNotFound f.name)

/-- `Disk.Open` (disk.go lines 107-126).  As in `Create`, the outer `Option`
is `none` exactly when `d.open[filename] = true` panics on a nil map. -/
def Open (d : Disk) (filename : List Nat) : Option (Disk × Res File) :=
  if checkIsOpen d filename then some (d, .err (.fileAlreadyInUse filename))
  else
    match loadRootEntry d { name := filename, desc := 0, offset := 0, size := 0 } with
    | .err e => some (d, .err e)
    | .ok f =>
      match d.openNames with
      | none => none
      | some m => some ({ d with openNames := some (filename :: m) }, .ok f)

/-! ### The file-handle engine, modelled from the spec

`File.Read`, `File.Write` and `File.Close` are called by the repository's tests
but their source file is not under src/ (the spec notes the Read/Write bodies
are unimplemented stubs and defines their intended behavior in §4.3-§4.6).
Everything in this section is therefore modelled from the spec's words, not
from Go source. -/

/-- The value of FAT entry `j` (data-block-relative index), i.e. the u16 at
byte `BlockSize + 2*j` of the volume. -/
def fatEntryVal (d : Disk) (j : Nat) : Nat :=
  getU16 d.store.bytes (BlockSize + 2 * j)

/-- Modelled from the spec: write FAT entry `j` (little-endian u16) in place
and persist it. -/
def setFatEntry (d : Disk) (j v : Nat) : Disk :=
  { d with store := ⟨putU16 d.store.bytes (BlockSize + 2 * j) v,
                     max d.store.size (BlockSize + 2 * j + 2)⟩ }

/-- Modelled from the spec (§4.3): scan FAT entries in ascending index order
for the first entry equal to 0; `cnt` entries remain, starting at index `j`
(`dataBlockCt` entries at the top-level call). -/
def findFreeEntry (d : Disk) : Nat → Nat → Option Nat
  | _, 0 => none
  | j, cnt + 1 => if fatEntryVal d j = 0 then some j else findFreeEntry d (j + 1) cnt

/-- Modelled from the spec (§4.3 `extendChain`): find a free entry, point the
entry at `tail` (which holds the end-of-chain value) at it, and mark the new
entry end-of-chain; `FullDiskError` when no free entry exists. -/
def extendChain (d : Disk) (tail : Nat) : Disk × Res Nat :=
  match findFreeEntry d 0 d.dataBlockCt with
  | none => (d, .err .fullDisk)
  | some j => (setFatEntry (setFatEntry d tail j) j FatEoc, .ok j)

/-- Modelled from the spec (§4.3 `followChain`): the ordered block indices from
`cur`, ending with the entry whose value is `FatEoc`; the fuel bounds the
number of hops (more than `dataBlockCt` hops is corruption). -/
def followChainAux (d : Disk) : Nat → Nat → Option (List Nat)
  | _, 0 => none
  | cur, fuel + 1 =>
    if fatEntryVal d cur = FatEoc then some [cur]
    else
      match followChainAux d (fatEntryVal d cur) fuel with
      | none => none
      | some rest => some (cur :: rest)

/-- Modelled from the spec: `followChain` with the corruption bound of
`dataBlockCt` hops. -/
def followChain (d : Disk) (head : Nat) : Option (List Nat) :=
  followChainAux d head d.dataBlockCt

/-- Modelled from the spec (§4.6): extend the chain by `cnt` further blocks,
one `extendChain` call per block, appending each new index to the chain. -/
def extendTo (chain : List Nat) : Disk → Nat → Disk × Res (List Nat)
  | d, 0 => (d, .ok chain)
  | d, cnt + 1 =>
    match extendChain d (chain.getLastD 0) with
    | (d1, .err e) => (d1, .err e)
    | (d1, .ok j) =>
      match extendTo (chain ++ [j]) d1 cnt with
      | (d2, r) => (d2, r)

/-- Modelled from the spec (§4.4 `updateSize`): rewrite only the 4-byte size
field of root entry `entryInd` in place. -/
def updateSize (d : Disk) (entryInd sz : Nat) : Disk :=
  { d with store := ⟨putU32 d.store.bytes (d.rootDirInd * BlockSize + 32 * entryInd + 16) sz,
                     max d.store.size (d.rootDirInd * BlockSize + 32 * entryInd + 20)⟩ }

/-- Absolute byte address of intra-block offset `intra` of data-block-relative
index `blk`: the data region starts at block `dataStartInd`. -/
def dataByteAddr (d : Disk) (blk intra : Nat) : Nat :=
  (d.dataStartInd + blk) * BlockSize + intra

/-- Modelled from the spec (§4.6): write one payload byte at logical file
position `pos` through the chain. -/
def writeDataByte (d : Disk) (chain : List Nat) (pos b : Nat) : Disk :=
  let ad := dataByteAddr d (chain.getD (pos / BlockSize) 0) (pos % BlockSize)
  { d with store := ⟨upd d.store.bytes ad b, max d.store.size (ad + 1)⟩ }

/-- Modelled from the spec (§4.6): place the payload bytes at consecutive
logical positions starting at `pos`, crossing block boundaries by following
the chain. -/
def placeBytes (chain : List Nat) : Disk → Nat → List Nat → Disk
  | d, _, [] => d
  | d, pos, b :: rest => placeBytes chain (writeDataByte d chain pos b) (pos + 1) rest

/-- The u16 `startBlock` field of root entry `entryInd`: the head of the
file's chain. -/
def entryStartBlock (d : Disk) (entryInd : Nat) : Nat :=
  getU16 d.store.bytes (d.rootDirInd * BlockSize + 32 * entryInd + 20)

/-- Modelled from the spec (§4.6 Write): walk the chain from the directory
entry's head, extend it with `extendChain` while more data remains past the
end-of-chain, place the bytes across block boundaries, then persist the new
size via `updateSize` when the write grew the file; the cursor advances by the
transferred count. -/
def fileWrite (d : Disk) (f : File) (data : List Nat) : Disk × Res (File × Nat) :=
  match followChain d (entryStartBlock d f.desc) with
  | none => (d, .err .corruption)
  | some chain =>
    let needed := (f.offset + data.length + (BlockSize - 1)) / BlockSize
    match extendTo chain d (needed - chain.length) with
    | (d1, .err e) => (d1, .err e)
    | (d1, .ok chain1) =>
      let d2 := placeBytes chain1 d1 f.offset data
      if f.size < f.offset + data.length then
        (updateSize d2 f.desc (f.offset + data.length),
         .ok ({ f with offset := f.offset + data.length, size := f.offset + data.length },
              data.length))
      else (d2, .ok ({ f with offset := f.offset + data.length }, data.length))

/-- Modelled from the spec (§4.6 Read): clamp the length to `size - offset`
(a zero clamped length returns no bytes and no error), walk the chain from the
directory entry's head (corruption when the chain has fewer than
`offset / BlockSize + 1` blocks), and collect bytes across block boundaries
until the clamped length is reached or the chain is exhausted. -/
def fileRead (d : Disk) (f : File) (length : Nat) : Res (List Nat × File) :=
  let len := min length (f.size - f.offset)
  if len = 0 then .ok ([], f)
  else
    match followChain d (entryStartBlock d f.desc) with
    | none => .err .corruption
    | some chain =>
      if chain.length ≤ f.offset / BlockSize then .err .corruption
      else
        let avail := min len (chain.length * BlockSize - f.offset)
        .ok ((List.range avail).map (fun m =>
               d.store.bytes (dataByteAddr d (chain.getD ((f.offset + m) / BlockSize) 0)
                 ((f.offset + m) % BlockSize))),
             { f with offset := f.offset + avail })

/-- Modelled from the spec (§4.5 Close): `MemberUndefined` on an empty handle
name, `FileNotOpen` when the name is not registered, otherwise unregister it. -/
def fileClose (d : Disk) (f : File) : Disk × Res Unit :=
  if f.name = [] then (d, .err .memberUndefined)
  else if ¬ checkIsOpen d f.name then (d, .err (.fileNotOpen f.name))
  else
    match d.openNames with
    | none => (d, .err (.fileNotOpen f.name))
    | some m => ({ d with openNames := some (m.filter (fun x => x != f.name)) }, .ok ())

/-- The end-to-end scenario of the spec's round-trip property: make a fresh
volume of `n` data blocks, `Create`, `Write` the payload at cursor 0, `Close`,
`Open`, then `Read` the file's full size at cursor 0.  `none` models a Go
panic, `some (.err e)` a returned error, `some (.ok bytes)` the bytes read. -/
def roundTrip (n : Nat) (name payload : List Nat) : Option (Res (List Nat)) :=
  match New [116] n with
  | .err e => some (.err e)
  | .ok d =>
    match Create d name with
    | none => none
    | some (_, .err e) => some (.err e)
    | some (d1, .ok f1) =>
      match fileWrite d1 f1 payload with
      | (_, .err e) => some (.err e)
      | (d2, .ok (f2, _)) =>
        match fileClose d2 f2 with
        | (_, .err e) => some (.err e)
        | (d3, .ok _) =>
          match Open d3 name with
          | none => none
          | some (_, .err e) => some (.err e)
          | some (d4, .ok f4) =>
            match fileRead d4 f4 f4.size with
            | .err e => some (.err e)
            | .ok (bytes, _) => some (.ok bytes)

/-! ### Concrete scenarios used by the theorems below -/

/-- The volume `New` builds for a non-empty path and `n` requested data
blocks: `createDisk` followed by `initFS`. -/
def freshVol (n : Nat) : Disk :=
  initFS { store := ⟨fun _ => 0, 0⟩, sig := [], blockCt := 0, rootDirInd := 0,
           dataStartInd := 0, dataBlockCt := n, fatBlockCt := 0, openNames := some [] }

/-- `k` successive `initFatChain` calls, collecting each call's result. -/
def allocRun : Disk → Nat → List (Res Nat)
  | _, 0 => []
  | d, k + 1 =>
    match initFatChain d with
    | (d1, r) => r :: allocRun d1 k

/-- The bytes of the test filename `"test.txt"` (8 bytes). -/
def tname : List Nat := [116, 101, 115, 116, 46, 116, 120, 116]

/-- A 64-data-block volume after one successful `Create` of `tname`. -/
def afterCreate64 : Disk :=
  match Create (freshVol 64) tname with
  | some (d, _) => d
  | none => freshVol 64

/-- A 2-data-block volume after `Create "a"`. -/
def c5dA : Disk :=
  match Create (freshVol 2) [97] with
  | some (d, _) => d
  | none => freshVol 2

/-- A 2-data-block volume after `Create "a"` then `Create "b"`. -/
def c5dB : Disk :=
  match Create c5dA [98] with
  | some (d, _) => d
  | none => c5dA

/-- A filename of exactly 16 bytes, `"abcdefghijklmnop"` (the only length at
which the duplicate comparison of `initRootEntry` can fire). -/
def name16 : List Nat := [97, 98, 99, 100, 101, 102, 103, 104, 105, 106, 107, 108, 109, 110, 111, 112]

/-- A 64-data-block volume after one successful `Create` of `name16`. -/
def c6d1 : Disk :=
  match Create (freshVol 64) name16 with
  | some (d, _) => d
  | none => freshVol 64

/-- The volume state `Create` leaves behind when a second `Create` of `name16`
fails in the directory step. -/
def c6d2 : Disk :=
  match Create c6d1 name16 with
  | some (d, _) => d
  | none => c6d1

/-- A backing store whose block 0 starts with eight `0x42` bytes instead of
the `"NEWFATFS"` signature. -/
def badStore : Store := ⟨fun a => if a < 8 then 66 else 0, 4096⟩

/-- Projection of a `Mount` result to the decoded signature, keeping the
error/ok distinction. -/
def mountSig : Res Disk → Res (List Nat)
  | .ok d => .ok d.sig
  | .err e => .err e

/-- A freshly created 64-data-block volume re-opened through `Mount`. -/
def mounted64 : Disk :=
  match Mount [116] (freshVol 64).store with
  | .ok d => d
  | .err _ => freshVol 64

/-- The explicit form of `freshVol n` when `1 ≤ n ≤ 2048` (so the FAT fits in
a single block): superblock bytes in block 0, zeros everywhere else, root
directory at block 2, data region from block 3. -/
def freshDisk (n : Nat) : Disk :=
  { store := ⟨fun a => if a < 4096 then encodeSuperblockBytes (3 + n) 2 3 n 1 a else 0,
              (3 + n) * 4096⟩,
    sig := sbSigBytes, blockCt := 3 + n, rootDirInd := 2, dataStartInd := 3,
    dataBlockCt := n, fatBlockCt := 1, openNames := some [] }

/-- The byte contents of a (`1 ≤ n ≤ 2048`)-volume after `Create name`: FAT
entry 0 claimed (bytes 4096 and 4097 hold `0xFF`), the filename at the head of
the root-directory block, the superblock in block 0, zeros elsewhere. -/
def stage1Bytes (n : Nat) (name : List Nat) : Nat → Nat :=
  fun a =>
    if a = 4096 ∨ a = 4097 then 255
    else if 8192 ≤ a ∧ a < 8192 + name.length then name.getD (a - 8192) 0
    else if a < 4096 then encodeSuperblockBytes (3 + n) 2 3 n 1 a
    else 0

/-- The volume after `Create name` on a fresh (`1 ≤ n ≤ 2048`)-volume. -/
def stage1Disk (n : Nat) (name : List Nat) : Disk :=
  { store := ⟨stage1Bytes n name, (3 + n) * 4096⟩,
    sig := sbSigBytes, blockCt := 3 + n, rootDirInd := 2, dataStartInd := 3,
    dataBlockCt := n, fatBlockCt := 1, openNames := some [name] }

/-- Invariant while the single file's chain is extended to `k` blocks on a
(`1 ≤ n ≤ 2048`)-volume: FAT entries `0, …, k-2` link to their successors,
entry `k-1` is end-of-chain, the remaining entries of the FAT block are free,
and every byte outside the FAT region still holds its `stage1Bytes` value. -/
def ChainState (n : Nat) (name : List Nat) (k : Nat) (d : Disk) : Prop :=
  d.rootDirInd = 2 ∧ d.dataStartInd = 3 ∧ d.dataBlockCt = n ∧ d.fatBlockCt = 1 ∧
  d.openNames = some [name] ∧
  (∀ j, j + 1 < k → fatEntryVal d j = j + 1) ∧
  fatEntryVal d (k - 1) = 65535 ∧
  (∀ j, k ≤ j → j < 2048 → fatEntryVal d j = 0) ∧
  (∀ a, a < 4096 ∨ 8192 ≤ a → d.store.bytes a = stage1Bytes n name a)

/-- Everything `Close`, `Open` and the read engine consult after the payload
is on disk: the volume fields, the open registry `reg`, the `k`-block chain
starting at entry 0, the filename and size/startBlock fields of root entry 0,
and the payload bytes in the data region. -/
def WrittenState (n : Nat) (name payload : List Nat) (k : Nat)
    (reg : List (List Nat)) (d : Disk) : Prop :=
  d.rootDirInd = 2 ∧ d.dataStartInd = 3 ∧ d.dataBlockCt = n ∧ d.fatBlockCt = 1 ∧
  d.openNames = some reg ∧
  (∀ j, j + 1 < k → fatEntryVal d j = j + 1) ∧
  fatEntryVal d (k - 1) = 65535 ∧
  (∀ j, j < 16 → d.store.bytes (8192 + j) = if j < name.length then name.getD j 0 else 0) ∧
  getU32 d.store.bytes 8208 = payload.length ∧
  getU16 d.store.bytes 8212 = 0 ∧
  (∀ m, m < payload.length → d.store.bytes (12288 + m) = payload.getD m 0)

/-- The fresh volume after `initFatChain` has claimed entry 0: bytes 4096 and
4097 hold `0xFF`, all else as in `freshDisk`. -/
def fatClaimedBytes (n : Nat) : Nat → Nat :=
  fun a => if a = 4096 ∨ a = 4097 then 255
           else if a < 4096 then encodeSuperblockBytes (3 + n) 2 3 n 1 a else 0

/-- The disk after `initFatChain` on `freshDisk n`. -/
def fatClaimedDisk (n : Nat) : Disk :=
  { store := ⟨fatClaimedBytes n, (3 + n) * 4096⟩, sig := sbSigBytes, blockCt := 3 + n,
    rootDirInd := 2, dataStartInd := 3, dataBlockCt := n, fatBlockCt := 1,
    openNames := some [] }

/-! ### Theorems -/

/-- Application form of `upd`. -/
theorem upd_app (f : Nat → Nat) (i v a : Nat) :
    upd f i v a = if a = i then v else f a := rfl

/-- Application form of `putU16`. -/
theorem putU16_app (f : Nat → Nat) (off v a : Nat) :
    putU16 f off v a
      = if a = off + 1 then v / 256 % 256 else if a = off then v % 256 else f a := rfl

/-- Application form of `putU32`. -/
theorem putU32_app (f : Nat → Nat) (off v a : Nat) :
    putU32 f off v a
      = if a = off + 3 then v / 16777216 % 256
        else if a = off + 2 then v / 65536 % 256
        else if a = off + 1 then v / 256 % 256
        else if a = off then v % 256 else f a := rfl

/-- Application form of `copySlice`. -/
theorem copySlice_app (f : Nat → Nat) (off : Nat) (src : List Nat) (len a : Nat) :
    copySlice f off src len a
      = if off ≤ a ∧ a < off + len then src.getD (a - off) 0 else f a := rfl

/-- Byte function of `writeAt`. -/
theorem writeAt_bytes (s : Store) (off len : Nat) (buf : Nat → Nat) (a : Nat) :
    (writeAt s off len buf).bytes a
      = if off ≤ a ∧ a < off + len then buf (a - off) else s.bytes a := rfl

/-- Size of `writeAt`. -/
theorem writeAt_size (s : Store) (off len : Nat) (buf : Nat → Nat) :
    (writeAt s off len buf).size = max s.size (off + len) := rfl

/-- Application form of `readBuf`. -/
theorem readBuf_app (s : Store) (off i : Nat) : readBuf s off i = s.bytes (off + i) := rfl

/-- Byte function of `freshDisk`. -/
theorem freshDisk_bytes (n a : Nat) :
    (freshDisk n).store.bytes a
      = if a < 4096 then encodeSuperblockBytes (3 + n) 2 3 n 1 a else 0 := rfl

/-- Application form of `fatClaimedBytes`. -/
theorem fatClaimedBytes_app (n a : Nat) :
    fatClaimedBytes n a
      = if a = 4096 ∨ a = 4097 then 255
        else if a < 4096 then encodeSuperblockBytes (3 + n) 2 3 n 1 a else 0 := rfl

/-- Application form of `stage1Bytes`. -/
theorem stage1Bytes_app (n : Nat) (name : List Nat) (a : Nat) :
    stage1Bytes n name a
      = if a = 4096 ∨ a = 4097 then 255
        else if 8192 ≤ a ∧ a < 8192 + name.length then name.getD (a - 8192) 0
        else if a < 4096 then encodeSuperblockBytes (3 + n) 2 3 n 1 a
        else 0 := rfl

/-- Two stores with the same byte function and length are equal. -/
theorem storeEq : ∀ {s1 s2 : Store}, s1.bytes = s2.bytes → s1.size = s2.size → s1 = s2
  | ⟨_, _⟩, ⟨_, _⟩, rfl, rfl => rfl

/-- Two disks with the same components are equal. -/
theorem diskEq : ∀ {d1 d2 : Disk}, d1.store = d2.store → d1.sig = d2.sig →
    d1.blockCt = d2.blockCt → d1.rootDirInd = d2.rootDirInd →
    d1.dataStartInd = d2.dataStartInd → d1.dataBlockCt = d2.dataBlockCt →
    d1.fatBlockCt = d2.fatBlockCt → d1.openNames = d2.openNames → d1 = d2
  | ⟨_, _, _, _, _, _, _, _⟩, ⟨_, _, _, _, _, _, _, _⟩,
    rfl, rfl, rfl, rfl, rfl, rfl, rfl, rfl => rfl

/-- For `1 ≤ n ≤ 2048` the fresh volume has the explicit `freshDisk` form. -/
theorem freshVol_eq (n : Nat) (h1 : 1 ≤ n) (h2 : n ≤ 2048) : freshVol n = freshDisk n := by
  have hf : numFatBlocks n = 1 := by unfold numFatBlocks; omega
  unfold freshVol initFS initSuperblock
  dsimp only
  rw [hf]
  refine diskEq (storeEq ?_ ?_) rfl rfl rfl rfl rfl rfl rfl
  · funext a
    show (if 0 ≤ a ∧ a < 0 + BlockSize
            then encodeSuperblockBytes (2 + 1 + n) (1 + 1) (2 + 1) n 1 (a - 0)
            else if 0 ≤ a ∧ a < 0 + (2 + 1 + n) * BlockSize then (0 : Nat) else 0)
        = (freshDisk n).store.bytes a
    show _ = (if a < 4096 then encodeSuperblockBytes (3 + n) 2 3 n 1 a else 0)
    simp only [BlockSize]
    by_cases hA : a < 4096
    · rw [if_pos (by omega), if_pos hA]
      exact rfl
    · rw [if_neg (by omega), if_neg hA]
      split <;> rfl
  · show max (max 0 (0 + (2 + 1 + n) * BlockSize)) (0 + BlockSize) = (3 + n) * 4096
    simp only [BlockSize]
    omega


/-- C2, evaluation at the failing input: on a fresh 64-data-block volume the
first `initFatChain` call returns `0`, but the second returns `2` — the byte
offset of FAT entry 1 inside the FAT buffer, not the data-block-relative index
`1` that the claim (and the repository's own test, which multiplies the return
value by `FatEntrySize`) expects for the second allocation. -/
theorem initFatChain_second_call_returns_byte_offset :
    (initFatChain (freshVol 64)).2 = .ok 0 ∧
    (initFatChain (initFatChain (freshVol 64)).1).2 = .ok 2 := by decide

/-- C3, evaluation at the failing input: on a fresh volume with
`dataBlockCt = 1` the second `initFatChain` call — which per the claim must
fail with `FullDiskError` — succeeds and returns byte offset `2`, because the
scan runs over all `fatBlockCt * BlockSize / 2 = 2048` entries of the FAT
block rather than over the volume's `dataBlockCt` entries. -/
theorem alloc_past_capacity_succeeds :
    allocRun (freshVol 1) 2 = [.ok 0, .ok 2] := by decide

/-- C4, evaluation at the failing input: a second `Create` of the 8-byte name
`"test.txt"` succeeds (allocating a second directory entry at byte offset 32)
instead of failing with `FileAlreadyExistsError`, because `initRootEntry`
compares the stored name padded with nulls to 16 bytes against the raw
filename, which can only match when the filename is exactly 16 bytes long. -/
theorem duplicate_create_succeeds :
    (Create (freshVol 64) tname).map (fun p => p.2)
      = some (.ok { name := tname, desc := 0, offset := 0, size := 0 }) ∧
    (Create afterCreate64 tname).map (fun p => p.2)
      = some (.ok { name := tname, desc := 32, offset := 0, size := 0 }) := by decide

/-- C5, evaluation at the failing input: on a fresh volume with
`dataBlockCt = 2`, after `Create "a"` and `Create "b"` both succeed, the
second (non-free: its first name byte is 98) root entry's startBlock field
holds `2` — the FAT byte offset handed over by `initFatChain` — which is not a
FAT entry index in `[0, dataBlockCt) = [0, 2)`. -/
theorem create_startblock_out_of_range :
    (Create (freshVol 2) [97]).map (fun p => p.2)
      = some (.ok { name := [97], desc := 0, offset := 0, size := 0 }) ∧
    (Create c5dA [98]).map (fun p => p.2)
      = some (.ok { name := [98], desc := 32, offset := 0, size := 0 }) ∧
    c5dB.store.bytes (2 * BlockSize + 32) = 98 ∧
    entryStartBlock c5dB 1 = 2 ∧
    c5dB.dataBlockCt = 2 := by decide

/-- C6, counterexample: `Create` of the 16-byte name `name16` on a volume that
already holds it fails with `FileAlreadyExistsError` from the directory step,
yet the resulting on-disk state is not the pre-call state: FAT byte 4098 (the
low byte of FAT entry 1, claimed by the `initFatChain` step and persisted)
changed from 0 to 255. -/
theorem create_error_not_atomic :
    (Create c6d1 name16).map (fun p => p.2) = some (.err (.fileAlreadyExists name16)) ∧
    c6d1.store.bytes 4098 = 0 ∧
    c6d2.store.bytes 4098 = 255 := by decide

/-- C7, evaluation at the failing input: `Mount` of a backing store whose
block 0 begins with eight `0x42` bytes rather than `"NEWFATFS"` succeeds, and
the decoded signature field is the mismatching `[66, …, 66]` — `readSuperblock`
never compares the signature, so no `FormatError` is possible. -/
theorem mount_accepts_bad_signature :
    mountSig (Mount [116] badStore) = .ok [66, 66, 66, 66, 66, 66, 66, 66] ∧
    [66, 66, 66, 66, 66, 66, 66, 66] ≠ sbSigBytes := by decide

/-- C8, evaluation at the failing input: after `Mount` of a freshly created
volume the open-name registry reads as empty (`checkIsOpen` is false), but a
subsequent `Create` hits the nil-map assignment `d.open[filename] = true` and
panics (`none` in the model): `Mount` builds `Disk{fd: fd}` without
initializing the `open` map. -/
theorem create_after_mount_panics :
    checkIsOpen mounted64 [97, 46, 116] = false ∧
    Create mounted64 [97, 46, 116] = none :=
  ⟨rfl, rfl⟩

/-- C9: for every requested data-block count `n` and non-empty path, `New`
produces the volume `freshVol n` whose layout satisfies
`fatBlockCt = ceil(2*n/4096)` (stated both as the natural-number formula and
by the two inequalities characterizing the ceiling),
`totalBlocks = 2 + fatBlockCt + n`, `rootDirInd = 1 + fatBlockCt`,
`dataStartInd = 2 + fatBlockCt`, and whose backing store is zero-filled to
exactly `totalBlocks * 4096` bytes with every byte outside the superblock
block still zero. -/
theorem new_layout (filename : List Nat) (n : Nat) (h : filename ≠ []) :
    New filename n = .ok (freshVol n) ∧
    (freshVol n).fatBlockCt = (2 * n + 4095) / 4096 ∧
    2 * n ≤ 4096 * (freshVol n).fatBlockCt ∧
    4096 * (freshVol n).fatBlockCt < 2 * n + 4096 ∧
    (freshVol n).blockCt = 2 + (freshVol n).fatBlockCt + n ∧
    (freshVol n).rootDirInd = 1 + (freshVol n).fatBlockCt ∧
    (freshVol n).dataStartInd = 2 + (freshVol n).fatBlockCt ∧
    (freshVol n).dataBlockCt = n ∧
    (freshVol n).store.size = (freshVol n).blockCt * 4096 ∧
    (∀ a, 4096 ≤ a → (freshVol n).store.bytes a = 0) := by
  refine ⟨?_, ?_, ?_, ?_, ?_, ?_, ?_, ?_, ?_, ?_⟩
  · simp only [New, createDisk, if_neg h, freshVol]
  · rfl
  · show 2 * n ≤ 4096 * numFatBlocks n
    unfold numFatBlocks; omega
  · show 4096 * numFatBlocks n < 2 * n + 4096
    unfold numFatBlocks; omega
  · rfl
  · rfl
  · rfl
  · rfl
  · show max (max 0 (0 + (2 + numFatBlocks n + n) * 4096)) (0 + 4096)
      = (2 + numFatBlocks n + n) * 4096
    omega
  · intro a ha
    show (if 0 ≤ a ∧ a < 0 + 4096 then _ else if 0 ≤ a ∧ a < 0 + (2 + numFatBlocks n + n) * 4096 then (0 : Nat) else 0) = 0
    rw [if_neg (by omega)]
    split <;> rfl

/-- C9 witness at the concrete scenario of the spec (`dataBlockCt = 64`,
backing store `67 * 4096 = 274432` bytes). -/
theorem new_layout_w :
    ([116] : List Nat) ≠ [] ∧
    (freshVol 64).store.size = 274432 ∧
    (New [116] 64 = .ok (freshVol 64) ∧
     (freshVol 64).fatBlockCt = (2 * 64 + 4095) / 4096 ∧
     2 * 64 ≤ 4096 * (freshVol 64).fatBlockCt ∧
     4096 * (freshVol 64).fatBlockCt < 2 * 64 + 4096 ∧
     (freshVol 64).blockCt = 2 + (freshVol 64).fatBlockCt + 64 ∧
     (freshVol 64).rootDirInd = 1 + (freshVol 64).fatBlockCt ∧
     (freshVol 64).dataStartInd = 2 + (freshVol 64).fatBlockCt ∧
     (freshVol 64).dataBlockCt = 64 ∧
     (freshVol 64).store.size = (freshVol 64).blockCt * 4096 ∧
     (∀ a, 4096 ≤ a → (freshVol 64).store.bytes a = 0)) :=
  ⟨by decide, by decide, new_layout [116] 64 (by decide)⟩

/-- C10: superblock round-trip — packing any field tuple within the encoded
widths (u16 for the four counts/indices, u8 for `fatBlockCt`) with the buffer
builder of `initSuperblock` and unpacking it with the field decoder of
`readSuperblock` returns exactly the signature bytes and the original
values. -/
theorem superblock_roundtrip (bc rd ds db fb : Nat)
    (h1 : bc < 65536) (h2 : rd < 65536) (h3 : ds < 65536)
    (h4 : db < 65536) (h5 : fb < 256) :
    decodeSuperblockFields (encodeSuperblockBytes bc rd ds db fb)
      = (sbSigBytes, bc, rd, ds, db, fb) := by
  simp only [decodeSuperblockFields, encodeSuperblockBytes, putU16, upd, copySlice, getU16,
    List.range_succ, List.range_zero, List.map_append, List.map_cons, List.map_nil, sbSigBytes]
  norm_num
  omega

/-- C10 witness at the layout tuple of a 64-data-block volume. -/
theorem superblock_roundtrip_w :
    (67 : Nat) < 65536 ∧ (1 : Nat) < 256 ∧
    decodeSuperblockFields (encodeSuperblockBytes 67 2 3 64 1) = (sbSigBytes, 67, 2, 3, 64, 1) :=
  ⟨by decide, by decide,
   superblock_roundtrip 67 2 3 64 1 (by decide) (by decide) (by decide) (by decide) (by decide)⟩

/-- A successful FAT scan stops at an even byte offset below the scanned
range whose 16-bit value is zero. -/
theorem scanFatFree_some_spec (buf : Nat → Nat) :
    ∀ cnt s i, scanFatFree buf s cnt = some i →
      getU16 buf i = 0 ∧ s ≤ i ∧ i < s + 2 * cnt ∧ (i - s) % 2 = 0 := by
  intro cnt
  induction cnt with
  | zero => intro s i h; simp [scanFatFree] at h
  | succ c ih =>
    intro s i h
    rw [show scanFatFree buf s (c + 1)
        = if getU16 buf s = 0 then some s else scanFatFree buf (s + 2) c from rfl] at h
    split at h
    · injection h with h'
      subst h'
      exact ⟨by assumption, le_refl _, by omega, by omega⟩
    · obtain ⟨h1, h2, h3, h4⟩ := ih (s + 2) i h
      exact ⟨h1, by omega, by omega, by omega⟩

/-- When `initRootEntry` fails, it has performed no write: the disk state it
returns is its argument. -/
theorem initRootEntry_err_eq (d : Disk) (fn : List Nat) (sb : Nat) (e : GoErr)
    (h : (initRootEntry d fn sb).2 = .err e) : (initRootEntry d fn sb).1 = d := by
  unfold initRootEntry at h ⊢
  rcases hs : scanRootCreate (readBuf d.store (d.rootDirInd * BlockSize)) fn 0 (BlockSize / 32)
    with _ | _ <;> simp [hs] at h ⊢

/-- The state `initFatChain` leaves after a successful allocation: the two
bytes of the claimed entry (previously a zero 16-bit value) hold `0xFF`, and
every other byte of the volume is unchanged. -/
theorem initFatChain_ok_spec (d : Disk) (i : Nat) (h : (initFatChain d).2 = .ok i) :
    (∀ a, a ≠ 4096 + i → a ≠ 4097 + i → (initFatChain d).1.store.bytes a = d.store.bytes a) ∧
    (initFatChain d).1.store.bytes (4096 + i) = 255 ∧
    (initFatChain d).1.store.bytes (4097 + i) = 255 ∧
    getU16 d.store.bytes (4096 + i) = 0 := by
  unfold initFatChain at h ⊢
  rcases hs : scanFatFree (readBuf d.store BlockSize) 0 (d.fatBlockCt * BlockSize / 2)
    with _ | j
  · simp [hs] at h
  · simp only [hs] at h ⊢
    injection h with h'
    subst j
    obtain ⟨hz, _, hlt, hpar⟩ := scanFatFree_some_spec _ _ _ _ hs
    simp only [BlockSize] at hlt hpar
    have hfatlen : i + 1 < d.fatBlockCt * 4096 := by omega
    simp only [getU16, readBuf, BlockSize] at hz
    refine ⟨?_, ?_, ?_, ?_⟩
    · intro a h1 h2
      simp only [writeAt, putU16, upd, readBuf, BlockSize, FatEoc]
      by_cases hA : 4096 ≤ a ∧ a < 4096 + d.fatBlockCt * 4096
      · rw [if_pos hA, if_neg (show ¬ a - 4096 = i + 1 by omega),
          if_neg (show ¬ a - 4096 = i by omega)]
        rw [show 4096 + (a - 4096) = a from by omega]
      · rw [if_neg hA]
    · simp only [writeAt, putU16, upd, readBuf, BlockSize, FatEoc]
      rw [if_pos (show 4096 ≤ 4096 + i ∧ 4096 + i < 4096 + d.fatBlockCt * 4096 by omega),
        if_neg (show ¬ (4096 + i) - 4096 = i + 1 by omega),
        if_pos (show (4096 + i) - 4096 = i by omega)]
    · simp only [writeAt, putU16, upd, readBuf, BlockSize, FatEoc]
      rw [if_pos (show 4096 ≤ 4097 + i ∧ 4097 + i < 4096 + d.fatBlockCt * 4096 by omega),
        if_pos (show (4097 + i) - 4096 = i + 1 by omega)]
    · simp only [getU16]
      rw [show (4096 + i) + 1 = 4096 + (i + 1) from by omega]
      exact hz

/-- C6, amended: when `Create` fails with `FileAlreadyExistsError` or
`RootDirFullError` from the directory step, the root-directory block — and
every byte other than the claimed FAT entry — is exactly as before the call,
but the FAT region is not restored: the entry claimed by the allocation step
(previously a zero 16-bit value) remains set to the end-of-chain bytes
`0xFF 0xFF` and persisted. -/
theorem create_dir_failure_leaves_fat_claimed (d : Disk) (fn : List Nat) (d' : Disk)
    (e : GoErr) (i : Nat)
    (hcall : Create d fn = some (d', .err e))
    (he : e = .fileAlreadyExists fn ∨ e = .rootDirFull)
    (hi : (initFatChain d).2 = .ok i) :
    (∀ a, a ≠ 4096 + i → a ≠ 4097 + i → d'.store.bytes a = d.store.bytes a) ∧
    d'.store.bytes (4096 + i) = 255 ∧
    d'.store.bytes (4097 + i) = 255 ∧
    getU16 d.store.bytes (4096 + i) = 0 := by
  unfold Create at hcall
  rcases h1 : initFatChain d with ⟨d1, r1⟩
  rw [h1] at hcall hi
  cases r1 with
  | err e1 => simp at hi
  | ok j =>
    simp only at hi
    injection hi with hi'
    subst j
    dsimp only at hcall
    rcases h2 : initRootEntry d1 fn i with ⟨d2, r2⟩
    rw [h2] at hcall
    cases r2 with
    | ok rInd =>
      dsimp only at hcall
      rcases hm : d2.openNames with _ | m <;> rw [hm] at hcall <;> simp at hcall
    | err e2 =>
      dsimp only at hcall
      simp only [Option.some.injEq, Prod.mk.injEq] at hcall
      obtain ⟨hd, hee⟩ := hcall
      have hroot : d2 = d1 := by
        have := initRootEntry_err_eq d1 fn i e2 (by rw [h2])
        rw [h2] at this
        exact this
      have hspec := initFatChain_ok_spec d i (by rw [h1])
      rw [h1] at hspec
      subst hd
      subst hroot
      exact hspec

/-- C6 amended, witness: the second `Create` of the 16-byte name on `c6d1`
fails in the directory step with `FileAlreadyExistsError`, leaving every byte
except FAT entry 1 (byte offset 2, i.e. addresses 4098 and 4099) unchanged,
with that entry — free before the call — persisted as end-of-chain. -/
theorem create_dir_failure_leaves_fat_claimed_w :
    (∀ a, a ≠ 4096 + 2 → a ≠ 4097 + 2 → c6d2.store.bytes a = c6d1.store.bytes a) ∧
    c6d2.store.bytes (4096 + 2) = 255 ∧
    c6d2.store.bytes (4097 + 2) = 255 ∧
    getU16 c6d1.store.bytes (4096 + 2) = 0 :=
  create_dir_failure_leaves_fat_claimed c6d1 name16 c6d2 (.fileAlreadyExists name16) 2
    rfl (Or.inl rfl) (by decide)

/-- The FAT scan stops immediately at a free entry. -/
theorem scanFatFree_found (buf : Nat → Nat) (s cnt : Nat) (hc : 0 < cnt)
    (h : getU16 buf s = 0) : scanFatFree buf s cnt = some s := by
  cases cnt with
  | zero => omega
  | succ c => simp [scanFatFree, h]

/-- The root-directory creation scan stops immediately at a free slot. -/
theorem scanRootCreate_free (buf : Nat → Nat) (fn : List Nat) (s cnt : Nat) (hc : 0 < cnt)
    (h : buf s = 0) : scanRootCreate buf fn s cnt = .ok s := by
  cases cnt with
  | zero => omega
  | succ c => simp [scanRootCreate, h]

/-- The root-directory lookup scan stops immediately at a matching entry. -/
theorem scanRootLoad_found (buf : Nat → Nat) (nm : List Nat) (s cnt : Nat) (hc : 0 < cnt)
    (h : trimNulls (entryNameBytes buf s) = nm) :
    scanRootLoad buf nm s cnt = some (getU32 buf (s + 16), getU16 buf (s + 20)) := by
  cases cnt with
  | zero => omega
  | succ c => simp [scanRootLoad, h]

set_option maxRecDepth 4096 in
/-- `initFatChain` on the explicit fresh volume claims entry 0 and returns
byte offset 0. -/
theorem initFatChain_freshDisk (n : Nat) :
    initFatChain (freshDisk n) = (fatClaimedDisk n, .ok 0) := by
  have hscan : scanFatFree (readBuf (freshDisk n).store BlockSize) 0
      ((freshDisk n).fatBlockCt * BlockSize / 2) = some 0 := by
    apply scanFatFree_found
    · show 0 < 1 * BlockSize / 2
      norm_num [BlockSize]
    · show getU16 (readBuf (freshDisk n).store BlockSize) 0 = 0
      norm_num [getU16, readBuf, freshDisk, BlockSize]
  unfold initFatChain
  dsimp only
  rw [hscan]
  dsimp only
  rw [Prod.mk.injEq]
  refine ⟨?_, rfl⟩
  refine diskEq (storeEq ?_ ?_) rfl rfl rfl rfl rfl rfl rfl
  · funext a
    show (writeAt (freshDisk n).store BlockSize ((freshDisk n).fatBlockCt * BlockSize)
        (putU16 (readBuf (freshDisk n).store BlockSize) 0 FatEoc)).bytes a
      = (fatClaimedDisk n).store.bytes a
    rw [show (fatClaimedDisk n).store.bytes = fatClaimedBytes n from rfl,
      show (freshDisk n).fatBlockCt = 1 from rfl]
    rw [writeAt_bytes, fatClaimedBytes_app]
    simp only [BlockSize, FatEoc]
    by_cases hC : 4096 ≤ a ∧ a < 4096 + 1 * 4096
    · rw [if_pos hC, putU16_app]
      by_cases h1 : a - 4096 = 0 + 1
      · rw [if_pos h1, if_pos (show a = 4096 ∨ a = 4097 by omega)]
      · rw [if_neg h1]
        by_cases h0 : a - 4096 = 0
        · rw [if_pos h0, if_pos (show a = 4096 ∨ a = 4097 by omega)]
        · rw [if_neg h0, readBuf_app, freshDisk_bytes,
            show 4096 + (a - 4096) = a from by omega,
            if_neg (show ¬ a < 4096 by omega),
            if_neg (show ¬ (a = 4096 ∨ a = 4097) by omega)]
    · rw [if_neg hC, freshDisk_bytes, if_neg (show ¬ (a = 4096 ∨ a = 4097) by omega)]
  · show max ((3 + n) * 4096) (BlockSize + (freshDisk n).fatBlockCt * BlockSize) = (3 + n) * 4096
    simp only [BlockSize, freshDisk]
    omega

/-- `initRootEntry` on the claimed fresh volume writes the filename into root
entry 0, a zero startBlock, and returns byte offset 0, leaving the
`stage1Bytes` store (with the registry still empty). -/
theorem initRootEntry_fatClaimedDisk (n : Nat) (name : List Nat) (hlen : name.length ≤ 16) :
    initRootEntry (fatClaimedDisk n) name 0
      = (⟨⟨stage1Bytes n name, (3 + n) * 4096⟩, sbSigBytes, 3 + n, 2, 3, n, 1, some []⟩,
         .ok 0) := by
  have hscan : scanRootCreate
      (readBuf (fatClaimedDisk n).store ((fatClaimedDisk n).rootDirInd * BlockSize)) name 0
      (BlockSize / 32) = .ok 0 := by
    apply scanRootCreate_free
    · show 0 < BlockSize / 32
      norm_num [BlockSize]
    · rw [readBuf_app, show (fatClaimedDisk n).rootDirInd = 2 from rfl,
        show (fatClaimedDisk n).store.bytes = fatClaimedBytes n from rfl, fatClaimedBytes_app]
      norm_num [BlockSize]
  unfold initRootEntry
  dsimp only
  rw [hscan]
  dsimp only
  rw [Prod.mk.injEq]
  refine ⟨?_, rfl⟩
  refine diskEq (storeEq ?_ ?_) rfl rfl rfl rfl rfl rfl rfl
  · funext a
    show (writeAt (fatClaimedDisk n).store ((fatClaimedDisk n).rootDirInd * BlockSize) BlockSize
        (putU16 (copySlice
            (readBuf (fatClaimedDisk n).store ((fatClaimedDisk n).rootDirInd * BlockSize))
            0 name (min 16 name.length))
          (0 + 20) (0 % 65536))).bytes a
      = stage1Bytes n name a
    rw [show (fatClaimedDisk n).rootDirInd = 2 from rfl]
    rw [writeAt_bytes, stage1Bytes_app]
    simp only [BlockSize]
    have hmin : min 16 name.length = name.length := by omega
    by_cases hC : 2 * 4096 ≤ a ∧ a < 2 * 4096 + 4096
    · rw [if_pos hC, putU16_app]
      by_cases h21 : a - 2 * 4096 = 0 + 20 + 1
      · rw [if_pos h21, if_neg (show ¬ (a = 4096 ∨ a = 4097) by omega),
          if_neg (show ¬ (8192 ≤ a ∧ a < 8192 + name.length) by omega),
          if_neg (show ¬ a < 4096 by omega)]
      · rw [if_neg h21]
        by_cases h20 : a - 2 * 4096 = 0 + 20
        · rw [if_pos h20, if_neg (show ¬ (a = 4096 ∨ a = 4097) by omega),
            if_neg (show ¬ (8192 ≤ a ∧ a < 8192 + name.length) by omega),
            if_neg (show ¬ a < 4096 by omega)]
        · rw [if_neg h20, copySlice_app, hmin]
          by_cases hN : 0 ≤ a - 2 * 4096 ∧ a - 2 * 4096 < 0 + name.length
          · rw [if_pos hN, if_neg (show ¬ (a = 4096 ∨ a = 4097) by omega),
              if_pos (show 8192 ≤ a ∧ a < 8192 + name.length by omega),
              show a - 2 * 4096 - 0 = a - 8192 from by omega]
          · rw [if_neg hN, readBuf_app,
              show (fatClaimedDisk n).store.bytes = fatClaimedBytes n from rfl,
              fatClaimedBytes_app, show 2 * 4096 + (a - 2 * 4096) = a from by omega,
              if_neg (show ¬ (a = 4096 ∨ a = 4097) by omega),
              if_neg (show ¬ a < 4096 by omega),
              if_neg (show ¬ (8192 ≤ a ∧ a < 8192 + name.length) by omega),
              if_neg (show ¬ (a = 4096 ∨ a = 4097) by omega)]
    · rw [if_neg hC, show (fatClaimedDisk n).store.bytes = fatClaimedBytes n from rfl,
        fatClaimedBytes_app]
      by_cases hE : a = 4096 ∨ a = 4097
      · rw [if_pos hE, if_pos hE]
      · rw [if_neg hE, if_neg hE,
          if_neg (show ¬ (8192 ≤ a ∧ a < 8192 + name.length) by omega)]
  · show max (fatClaimedDisk n).store.size ((fatClaimedDisk n).rootDirInd * BlockSize + BlockSize)
      = (3 + n) * 4096
    rw [show (fatClaimedDisk n).store.size = (3 + n) * 4096 from rfl,
      show (fatClaimedDisk n).rootDirInd = 2 from rfl]
    simp only [BlockSize]
    omega

/-- `Create` on a fresh (`1 ≤ n ≤ 2048`)-volume claims FAT entry 0, fills root
entry 0, registers the name, and returns the fresh handle. -/
theorem create_on_fresh (n : Nat) (name : List Nat) (h1 : 1 ≤ n) (h2 : n ≤ 2048)
    (hlen : name.length ≤ 16) :
    Create (freshVol n) name
      = some (stage1Disk n name, .ok { name := name, desc := 0, offset := 0, size := 0 }) := by
  rw [freshVol_eq n h1 h2]
  unfold Create
  rw [initFatChain_freshDisk]
  dsimp only
  rw [initRootEntry_fatClaimedDisk n name hlen]
  dsimp only
  rfl

/-- `setFatEntry` changes exactly entry `j`: the byte pair of entry `j'` is
disjoint from that of any other entry. -/
theorem fatEntryVal_setFatEntry (d : Disk) (j j' v : Nat) (hv : v < 65536) :
    fatEntryVal (setFatEntry d j v) j' = if j' = j then v else fatEntryVal d j' := by
  unfold fatEntryVal setFatEntry getU16
  dsimp only
  rw [putU16_app, putU16_app]
  simp only [BlockSize]
  split_ifs <;> omega

/-- `setFatEntry` on an in-range entry leaves every byte outside the FAT
block unchanged. -/
theorem setFatEntry_bytes_outside (d : Disk) (j v a : Nat) (hj : j < 2048)
    (ha : a < 4096 ∨ 8192 ≤ a) : (setFatEntry d j v).store.bytes a = d.store.bytes a := by
  unfold setFatEntry
  dsimp only
  rw [putU16_app]
  simp only [BlockSize]
  rw [if_neg (by omega), if_neg (by omega)]

/-- `setFatEntry` only touches the store. -/
theorem setFatEntry_fields (d : Disk) (j v : Nat) :
    (setFatEntry d j v).rootDirInd = d.rootDirInd ∧
    (setFatEntry d j v).dataStartInd = d.dataStartInd ∧
    (setFatEntry d j v).dataBlockCt = d.dataBlockCt ∧
    (setFatEntry d j v).fatBlockCt = d.fatBlockCt ∧
    (setFatEntry d j v).openNames = d.openNames :=
  ⟨rfl, rfl, rfl, rfl, rfl⟩

/-- The free-entry scan returns the first index whose entry is zero. -/
theorem findFreeEntry_of (d : Disk) :
    ∀ t s cnt, t < cnt → (∀ u, u < t → fatEntryVal d (s + u) ≠ 0) →
      fatEntryVal d (s + t) = 0 → findFreeEntry d s cnt = some (s + t) := by
  intro t
  induction t with
  | zero =>
    intro s cnt hc _ hz
    cases cnt with
    | zero => omega
    | succ c =>
      rw [show findFreeEntry d s (c + 1)
          = if fatEntryVal d s = 0 then some s else findFreeEntry d (s + 1) c from rfl]
      rw [if_pos (show fatEntryVal d s = 0 from hz)]
      rfl
  | succ t ih =>
    intro s cnt hc hnz hz
    cases cnt with
    | zero => omega
    | succ c =>
      rw [show findFreeEntry d s (c + 1)
          = if fatEntryVal d s = 0 then some s else findFreeEntry d (s + 1) c from rfl]
      rw [if_neg (by
        have h0 := hnz 0 (by omega)
        simpa using h0)]
      have hrec := ih (s + 1) c (by omega)
        (fun u hu => by
          have := hnz (u + 1) (by omega)
          rwa [show s + (u + 1) = s + 1 + u from by omega] at this)
        (by rwa [show s + (t + 1) = s + 1 + t from by omega] at hz)
      rwa [show s + 1 + t = s + (t + 1) from by omega] at hrec

/-- `findFreeEntry` from index 0 returns the first zero entry. -/
theorem findFreeEntry_first (d : Disk) (t cnt : Nat) (hc : t < cnt)
    (hnz : ∀ u, u < t → fatEntryVal d u ≠ 0) (hz : fatEntryVal d t = 0) :
    findFreeEntry d 0 cnt = some t := by
  have h := findFreeEntry_of d t 0 cnt hc
    (fun u hu => by simpa using hnz u hu) (by simpa using hz)
  simpa using h

/-- The state after `Create` is a one-block chain state. -/
theorem stage1_chainState (n : Nat) (name : List Nat) :
    ChainState n name 1 (stage1Disk n name) := by
  refine ⟨rfl, rfl, rfl, rfl, rfl, ?_, ?_, ?_, ?_⟩
  · intro j hj
    omega
  · show getU16 (stage1Disk n name).store.bytes (BlockSize + 2 * (1 - 1)) = 65535
    rw [show (stage1Disk n name).store.bytes = stage1Bytes n name from rfl]
    unfold getU16
    rw [stage1Bytes_app, stage1Bytes_app]
    norm_num [BlockSize]
  · intro j h1 h2
    show getU16 (stage1Disk n name).store.bytes (BlockSize + 2 * j) = 0
    rw [show (stage1Disk n name).store.bytes = stage1Bytes n name from rfl]
    unfold getU16
    rw [stage1Bytes_app, stage1Bytes_app]
    simp only [BlockSize]
    rw [if_neg (show ¬ (4096 + 2 * j = 4096 ∨ 4096 + 2 * j = 4097) by omega),
      if_neg (show ¬ (8192 ≤ 4096 + 2 * j ∧ 4096 + 2 * j < 8192 + name.length) by omega),
      if_neg (show ¬ 4096 + 2 * j < 4096 by omega),
      if_neg (show ¬ (4096 + 2 * j + 1 = 4096 ∨ 4096 + 2 * j + 1 = 4097) by omega),
      if_neg (show ¬ (8192 ≤ 4096 + 2 * j + 1 ∧ 4096 + 2 * j + 1 < 8192 + name.length) by omega),
      if_neg (show ¬ 4096 + 2 * j + 1 < 4096 by omega)]
  · intro a ha
    rfl

/-- One `extendChain` call on a `k`-block chain state (`1 ≤ k < n ≤ 2048`)
allocates entry `k` and yields a `(k+1)`-block chain state. -/
theorem extendChain_step (n : Nat) (name : List Nat) (k : Nat) (d : Disk)
    (hCS : ChainState n name k d) (h1k : 1 ≤ k) (hkn : k < n) (hn : n ≤ 2048) :
    extendChain d (k - 1) = (setFatEntry (setFatEntry d (k - 1) k) k 65535, .ok k) ∧
    ChainState n name (k + 1) (setFatEntry (setFatEntry d (k - 1) k) k 65535) := by
  obtain ⟨hrd, hds, hdb, hfb, hop, hlink, heoc, hfree, hframe⟩ := hCS
  have hfind : findFreeEntry d 0 d.dataBlockCt = some k := by
    rw [hdb]
    apply findFreeEntry_first d k n hkn
    · intro u hu
      by_cases hu1 : u + 1 < k
      · rw [hlink u hu1]
        omega
      · rw [show u = k - 1 from by omega]
        rw [heoc]
        omega
    · exact hfree k (le_refl k) (by omega)
  have hval : ∀ j', fatEntryVal (setFatEntry (setFatEntry d (k - 1) k) k 65535) j'
      = if j' = k then 65535 else if j' = k - 1 then k else fatEntryVal d j' := by
    intro j'
    rw [fatEntryVal_setFatEntry _ _ _ _ (by omega),
      fatEntryVal_setFatEntry _ _ _ _ (by omega)]
  constructor
  · unfold extendChain
    rw [hfind]
    rfl
  · refine ⟨hrd, hds, hdb, hfb, hop, ?_, ?_, ?_, ?_⟩
    · intro j hj
      rw [hval]
      by_cases hjk : j = k - 1
      · rw [if_neg (by omega), if_pos hjk]
        omega
      · rw [if_neg (by omega), if_neg hjk]
        exact hlink j (by omega)
    · rw [hval]
      rw [if_pos (by omega)]
    · intro j hj h2048
      rw [hval, if_neg (by omega), if_neg (by omega)]
      exact hfree j (by omega) h2048
    · intro a ha
      rw [setFatEntry_bytes_outside _ _ _ _ (by omega) ha,
        setFatEntry_bytes_outside _ _ _ _ (by omega) ha]
      exact hframe a ha

/-- Extending a `k`-block chain by `c` further blocks produces the chain
`range (k + c)` and a matching chain state. -/
theorem extendTo_chain (n : Nat) (name : List Nat) (hn : n ≤ 2048) :
    ∀ c k d, ChainState n name k d → 1 ≤ k → k + c ≤ n →
      ∃ d', extendTo (List.range k) d c = (d', .ok (List.range (k + c))) ∧
        ChainState n name (k + c) d' := by
  intro c
  induction c with
  | zero =>
    intro k d hCS hk hkn
    exact ⟨d, rfl, hCS⟩
  | succ c ih =>
    intro k d hCS hk hkn
    obtain ⟨hec, hcs2⟩ := extendChain_step n name k d hCS hk (by omega) hn
    have hlast : (List.range k).getLastD 0 = k - 1 := by
      cases k with
      | zero => omega
      | succ k0 =>
        rw [List.range_succ, List.getLastD_concat]
        omega
    obtain ⟨d', hext, hcs'⟩ := ih (k + 1) _ hcs2 (by omega) (by omega)
    refine ⟨d', ?_, by rwa [show k + (c + 1) = k + 1 + c from by omega]⟩
    rw [show extendTo (List.range k) d (c + 1)
        = (match extendChain d ((List.range k).getLastD 0) with
           | (d1, .err e) => (d1, .err e)
           | (d1, .ok j) =>
             match extendTo (List.range k ++ [j]) d1 c with
             | (d2, r) => (d2, r)) from rfl]
    rw [hlast, hec]
    dsimp only
    rw [show List.range k ++ [k] = List.range (k + 1) from (List.range_succ k).symm]
    rw [hext, show k + (c + 1) = k + 1 + c from by omega]

/-- On a `k`-block linked chain (`k ≤ 2048`), the chain walk from `s < k`
yields `range' s (k - s)` given enough fuel. -/
theorem followChainAux_chain (d : Disk) (k : Nat)
    (hlink : ∀ j, j + 1 < k → fatEntryVal d j = j + 1)
    (heoc : fatEntryVal d (k - 1) = 65535) (hk : k ≤ 2048) :
    ∀ fuel s, s < k → k - s ≤ fuel →
      followChainAux d s fuel = some (List.range' s (k - s)) := by
  intro fuel
  induction fuel with
  | zero =>
    intro s hs hf
    omega
  | succ f ih =>
    intro s hs hf
    rw [show followChainAux d s (f + 1)
        = (if fatEntryVal d s = FatEoc then some [s]
           else match followChainAux d (fatEntryVal d s) f with
                | none => none
                | some rest => some (s :: rest)) from rfl]
    by_cases hse : s = k - 1
    · subst hse
      rw [if_pos (show fatEntryVal d (k - 1) = FatEoc from heoc)]
      rw [show k - (k - 1) = 0 + 1 from by omega, List.range'_succ]
      rfl
    · have hs1 : s + 1 < k := by omega
      rw [if_neg (show ¬ fatEntryVal d s = FatEoc by rw [hlink s hs1]; unfold FatEoc; omega)]
      rw [hlink s hs1]
      rw [ih (s + 1) (by omega) (by omega)]
      dsimp only
      rw [show k - s = (k - (s + 1)) + 1 from by omega, List.range'_succ]

/-- The full chain walk from the head entry 0 of a `k`-block chain. -/
theorem followChain_chain (d : Disk) (k : Nat)
    (hlink : ∀ j, j + 1 < k → fatEntryVal d j = j + 1)
    (heoc : fatEntryVal d (k - 1) = 65535) (hk : k ≤ 2048)
    (hk1 : 1 ≤ k) (hkd : k ≤ d.dataBlockCt) :
    followChain d 0 = some (List.range k) := by
  unfold followChain
  rw [followChainAux_chain d k hlink heoc hk d.dataBlockCt 0 (by omega) (by omega)]
  rw [List.range_eq_range', Nat.sub_zero]

/-- `placeBytes` leaves every non-store field unchanged. -/
theorem placeBytes_fields (chain : List Nat) :
    ∀ (data : List Nat) (d : Disk) (pos : Nat),
      (placeBytes chain d pos data).rootDirInd = d.rootDirInd ∧
      (placeBytes chain d pos data).dataStartInd = d.dataStartInd ∧
      (placeBytes chain d pos data).dataBlockCt = d.dataBlockCt ∧
      (placeBytes chain d pos data).fatBlockCt = d.fatBlockCt ∧
      (placeBytes chain d pos data).openNames = d.openNames := by
  intro data
  induction data with
  | nil =>
    intro d pos
    exact ⟨rfl, rfl, rfl, rfl, rfl⟩
  | cons b rest ih =>
    intro d pos
    exact ih (writeDataByte d chain pos b) (pos + 1)

/-- `placeBytes` over the chain `range k` writes payload byte `m` to address
`12288 + pos + m` and touches nothing else, as long as the written span stays
within the `k` chained blocks. -/
theorem placeBytes_bytes (k : Nat) :
    ∀ (data : List Nat) (d : Disk) (pos : Nat), d.dataStartInd = 3 →
      pos + data.length ≤ k * 4096 →
      ∀ a, (placeBytes (List.range k) d pos data).store.bytes a
        = if 12288 + pos ≤ a ∧ a < 12288 + pos + data.length
          then data.getD (a - (12288 + pos)) 0 else d.store.bytes a := by
  intro data
  induction data with
  | nil =>
    intro d pos hds hcov a
    rw [if_neg (by simp only [List.length_nil]; omega)]
    rfl
  | cons b rest ih =>
    intro d pos hds hcov a
    simp only [List.length_cons] at hcov
    have hplt : pos / BlockSize < k := by
      simp only [BlockSize]
      omega
    have haddr : dataByteAddr d ((List.range k).getD (pos / BlockSize) 0) (pos % BlockSize)
        = 12288 + pos := by
      rw [show (List.range k).getD (pos / BlockSize) 0 = pos / BlockSize from by
        rw [List.getD_eq_getElem?_getD, List.getElem?_range hplt]
        rfl]
      unfold dataByteAddr
      rw [hds]
      simp only [BlockSize]
      omega
    rw [show placeBytes (List.range k) d pos (b :: rest)
        = placeBytes (List.range k) (writeDataByte d (List.range k) pos b) (pos + 1) rest
        from rfl]
    rw [ih (writeDataByte d (List.range k) pos b) (pos + 1) hds (by omega) a]
    simp only [List.length_cons]
    have hwb : (writeDataByte d (List.range k) pos b).store.bytes a
        = if a = 12288 + pos then b else d.store.bytes a := by
      unfold writeDataByte
      dsimp only
      rw [upd_app, haddr]
    by_cases hin : 12288 + (pos + 1) ≤ a ∧ a < 12288 + (pos + 1) + rest.length
    · rw [if_pos hin, if_pos (show 12288 + pos ≤ a ∧ a < 12288 + pos + (rest.length + 1) by omega)]
      rw [show a - (12288 + pos) = (a - (12288 + (pos + 1))) + 1 from by omega]
      rw [List.getD_cons_succ]
    · rw [if_neg hin, hwb]
      by_cases heq : a = 12288 + pos
      · rw [if_pos heq, if_pos (show 12288 + pos ≤ a ∧ a < 12288 + pos + (rest.length + 1) by omega)]
        rw [show a - (12288 + pos) = 0 from by omega, List.getD_cons_zero]
      · rw [if_neg heq,
          if_neg (show ¬ (12288 + pos ≤ a ∧ a < 12288 + pos + (rest.length + 1)) by omega)]

/-- `updateSize` of root entry 0 writes exactly the four size-field bytes. -/
theorem updateSize_bytes0 (d : Disk) (sz : Nat) (hrd : d.rootDirInd = 2) (a : Nat) :
    (updateSize d 0 sz).store.bytes a
      = if a = 8211 then sz / 16777216 % 256
        else if a = 8210 then sz / 65536 % 256
        else if a = 8209 then sz / 256 % 256
        else if a = 8208 then sz % 256
        else d.store.bytes a := by
  unfold updateSize
  dsimp only
  rw [putU32_app, hrd]
  norm_num [BlockSize]

/-- `updateSize` only touches the store. -/
theorem updateSize_fields (d : Disk) (e sz : Nat) :
    (updateSize d e sz).rootDirInd = d.rootDirInd ∧
    (updateSize d e sz).dataStartInd = d.dataStartInd ∧
    (updateSize d e sz).dataBlockCt = d.dataBlockCt ∧
    (updateSize d e sz).fatBlockCt = d.fatBlockCt ∧
    (updateSize d e sz).openNames = d.openNames :=
  ⟨rfl, rfl, rfl, rfl, rfl⟩

/-- The post-`Create` state is the written state for the empty payload. -/
theorem stage1_writtenState (n : Nat) (name : List Nat) (hlen : name.length ≤ 16) :
    WrittenState n name [] 1 [name] (stage1Disk n name) := by
  obtain ⟨hrd, hds, hdb, hfb, hop, hlink, heoc, hfree, hframe⟩ := stage1_chainState n name
  have hb : ∀ a, 8192 + name.length ≤ a → a < 12288 →
      (stage1Disk n name).store.bytes a = 0 := by
    intro a ha1 ha2
    rw [show (stage1Disk n name).store.bytes = stage1Bytes n name from rfl, stage1Bytes_app]
    rw [if_neg (by omega), if_neg (by omega), if_neg (by omega)]
  refine ⟨hrd, hds, hdb, hfb, hop, hlink, heoc, ?_, ?_, ?_, ?_⟩
  · intro j hj
    rw [show (stage1Disk n name).store.bytes = stage1Bytes n name from rfl, stage1Bytes_app]
    by_cases hjl : j < name.length
    · rw [if_neg (by omega),
        if_pos (show 8192 ≤ 8192 + j ∧ 8192 + j < 8192 + name.length by omega),
        show 8192 + j - 8192 = j from by omega, if_pos hjl]
    · rw [if_neg (by omega),
        if_neg (show ¬ (8192 ≤ 8192 + j ∧ 8192 + j < 8192 + name.length) by omega),
        if_neg (by omega), if_neg hjl]
  · unfold getU32
    rw [hb 8208 (by omega) (by omega), hb (8208 + 1) (by omega) (by omega),
      hb (8208 + 2) (by omega) (by omega), hb (8208 + 3) (by omega) (by omega)]
    rfl
  · unfold getU16
    rw [hb 8212 (by omega) (by omega), hb (8212 + 1) (by omega) (by omega)]
  · intro m hm
    simp only [List.length_nil] at hm
    omega

/-- The spec-modelled Write on the post-`Create` state: the chain grows to
cover the payload, the payload lands at data-region bytes `12288 + m`, the
size field is persisted when it grows, and the returned handle carries
cursor = size = payload length. -/
theorem fileWrite_stage1 (n : Nat) (name payload : List Nat)
    (h1 : 1 ≤ n) (hn : n ≤ 2048) (hlen : name.length ≤ 16)
    (hcap : payload.length ≤ n * 4096) :
    ∃ d2 k, fileWrite (stage1Disk n name) ⟨name, 0, 0, 0⟩ payload
        = (d2, .ok (⟨name, 0, payload.length, payload.length⟩, payload.length)) ∧
      1 ≤ k ∧ k ≤ n ∧ payload.length ≤ k * 4096 ∧
      WrittenState n name payload k [name] d2 := by
  obtain ⟨hrd, hds, hdb, hfb, hop, hlink, heoc, hfree, hframe⟩ := stage1_chainState n name
  obtain ⟨_, _, _, _, _, _, _, hnames, hsz0, hsb16, _⟩ := stage1_writtenState n name hlen
  have hsb : entryStartBlock (stage1Disk n name) 0 = 0 := by
    unfold entryStartBlock
    rw [hrd]
    exact hsb16
  have hchain : followChain (stage1Disk n name) 0 = some (List.range 1) :=
    followChain_chain _ 1 hlink heoc (by omega) (by omega) (by rw [hdb]; omega)
  by_cases hL0 : payload = []
  · subst hL0
    refine ⟨stage1Disk n name, 1, ?_, by omega, by omega, by simp,
      stage1_writtenState n name hlen⟩
    unfold fileWrite
    dsimp only
    rw [hsb, hchain]
    rfl
  · have hL : 0 < payload.length := List.length_pos.mpr hL0
    have hcK : 1 + ((payload.length + 4095) / 4096 - 1) ≤ n := by omega
    obtain ⟨dE, hext, hcsE⟩ := extendTo_chain n name hn ((payload.length + 4095) / 4096 - 1) 1
      (stage1Disk n name) (stage1_chainState n name) (by omega) hcK
    rw [show 1 + ((payload.length + 4095) / 4096 - 1) = (payload.length + 4095) / 4096
      from by omega] at hext hcsE
    obtain ⟨hrdE, hdsE, hdbE, hfbE, hopE, hlinkE, heocE, hfreeE, hframeE⟩ := hcsE
    have hPfields := placeBytes_fields (List.range ((payload.length + 4095) / 4096)) payload dE 0
    obtain ⟨hPrd, hPds, hPdb, hPfb, hPop⟩ := hPfields
    have hPbytes := placeBytes_bytes ((payload.length + 4095) / 4096) payload dE 0 hdsE
      (by omega)
    have hUbytes := updateSize_bytes0
      (placeBytes (List.range ((payload.length + 4095) / 4096)) dE 0 payload) payload.length
      (by rw [hPrd, hrdE])
    have hUfields := updateSize_fields
      (placeBytes (List.range ((payload.length + 4095) / 4096)) dE 0 payload) 0 payload.length
    obtain ⟨hUrd, hUds, hUdb, hUfb, hUop⟩ := hUfields
    have hlowbytes : ∀ b, b < 8208 →
        (updateSize (placeBytes (List.range ((payload.length + 4095) / 4096)) dE 0 payload) 0
          payload.length).store.bytes b = dE.store.bytes b := by
      intro b hb
      rw [hUbytes b, if_neg (by omega), if_neg (by omega), if_neg (by omega), if_neg (by omega),
        hPbytes b, if_neg (by omega)]
    have hmidbytes : ∀ b, 8211 < b → b < 12288 →
        (updateSize (placeBytes (List.range ((payload.length + 4095) / 4096)) dE 0 payload) 0
          payload.length).store.bytes b = dE.store.bytes b := by
      intro b h1b h2b
      rw [hUbytes b, if_neg (by omega), if_neg (by omega), if_neg (by omega), if_neg (by omega),
        hPbytes b, if_neg (by omega)]
    have hfatval : ∀ j, j < 2048 →
        fatEntryVal (updateSize
          (placeBytes (List.range ((payload.length + 4095) / 4096)) dE 0 payload) 0
          payload.length) j = fatEntryVal dE j := by
      intro j hj
      unfold fatEntryVal getU16
      simp only [BlockSize]
      rw [hlowbytes (4096 + 2 * j) (by omega), hlowbytes (4096 + 2 * j + 1) (by omega)]
    refine ⟨updateSize (placeBytes (List.range ((payload.length + 4095) / 4096)) dE 0 payload) 0
      payload.length, (payload.length + 4095) / 4096, ?_, by omega, by omega, by omega,
      ?_, ?_, ?_, ?_, ?_, ?_, ?_, ?_, ?_, ?_, ?_⟩
    · unfold fileWrite
      dsimp only
      rw [hsb, hchain]
      dsimp only
      rw [show (0 + payload.length + (BlockSize - 1)) / BlockSize - (List.range 1).length
          = (payload.length + 4095) / 4096 - 1 from by
        simp only [BlockSize, List.length_range]
        omega]
      rw [hext]
      dsimp only
      rw [if_pos (show (0 : Nat) < 0 + payload.length by omega)]
      simp only [Nat.zero_add]
    · exact hUrd.trans (hPrd.trans hrdE)
    · exact hUds.trans (hPds.trans hdsE)
    · exact hUdb.trans (hPdb.trans hdbE)
    · exact hUfb.trans (hPfb.trans hfbE)
    · exact hUop.trans (hPop.trans hopE)
    · intro j hj
      rw [hfatval j (by omega)]
      exact hlinkE j hj
    · rw [hfatval ((payload.length + 4095) / 4096 - 1) (by omega)]
      exact heocE
    · intro j hj
      rw [hlowbytes (8192 + j) (by omega)]
      rw [hframeE (8192 + j) (Or.inr (by omega))]
      exact hnames j hj
    · unfold getU32
      rw [hUbytes 8208, hUbytes (8208 + 1), hUbytes (8208 + 2), hUbytes (8208 + 3)]
      norm_num
      omega
    · unfold getU16
      rw [hmidbytes 8212 (by omega) (by omega), hmidbytes (8212 + 1) (by omega) (by omega)]
      rw [hframeE 8212 (Or.inr (by omega)), hframeE (8212 + 1) (Or.inr (by omega))]
      exact hsb16
    · intro m hm
      rw [hUbytes (12288 + m), if_neg (by omega), if_neg (by omega), if_neg (by omega),
        if_neg (by omega), hPbytes (12288 + m),
        if_pos (show 12288 + 0 ≤ 12288 + m ∧ 12288 + m < 12288 + 0 + payload.length by omega),
        show 12288 + m - (12288 + 0) = m from by omega]

/-- `dropLeadingZeros` keeps a list whose head is nonzero. -/
theorem dropLeadingZeros_cons_ne (b : Nat) (rest : List Nat) (h : b ≠ 0) :
    dropLeadingZeros (b :: rest) = b :: rest := by
  unfold dropLeadingZeros
  rw [if_neg h]

/-- `dropLeadingZeros` swallows a leading zero block. -/
theorem dropLeadingZeros_replicate_zero (m : Nat) (l : List Nat) :
    dropLeadingZeros (List.replicate m 0 ++ l) = dropLeadingZeros l := by
  induction m with
  | zero => rfl
  | succ m0 ih =>
    rw [List.replicate_succ, List.cons_append]
    rw [show dropLeadingZeros (0 :: (List.replicate m0 0 ++ l))
        = if (0 : Nat) = 0 then dropLeadingZeros (List.replicate m0 0 ++ l)
          else 0 :: (List.replicate m0 0 ++ l) from rfl]
    rw [if_pos rfl]
    exact ih

/-- `dropLeadingZeros` keeps a list with no zero bytes. -/
theorem dropLeadingZeros_of_ne (l : List Nat) (hz : ∀ b ∈ l, b ≠ 0) :
    dropLeadingZeros l = l := by
  cases l with
  | nil => rfl
  | cons b t => exact dropLeadingZeros_cons_ne b t (hz b (by simp))

/-- Trimming nulls from a null-padded name with no interior zero bytes
recovers the name. -/
theorem trimNulls_padded (name : List Nat) (m : Nat) (hne : name ≠ [])
    (hz : ∀ b ∈ name, b ≠ 0) :
    trimNulls (name ++ List.replicate m 0) = name := by
  unfold trimNulls
  rcases name with _ | ⟨b, rest⟩
  · exact absurd rfl hne
  · rw [List.cons_append, dropLeadingZeros_cons_ne b _ (hz b (by simp))]
    rw [show (b :: (rest ++ List.replicate m 0)).reverse
        = List.replicate m 0 ++ (b :: rest).reverse from by
      rw [← List.cons_append, List.reverse_append, List.reverse_replicate]]
    rw [dropLeadingZeros_replicate_zero]
    rw [dropLeadingZeros_of_ne ((b :: rest).reverse)
      (fun x hx => hz x (List.mem_reverse.mp hx))]
    rw [List.reverse_reverse]

/-- The 16 name bytes of root entry 0 in a written state are the null-padded
filename. -/
theorem entryNameBytes_written (n : Nat) (name payload : List Nat) (k : Nat)
    (reg : List (List Nat)) (d : Disk) (hws : WrittenState n name payload k reg d)
    (hlen : name.length ≤ 16) :
    entryNameBytes (readBuf d.store (d.rootDirInd * BlockSize)) 0
      = name ++ List.replicate (16 - name.length) 0 := by
  obtain ⟨hrd, _, _, _, _, _, _, hnames, _, _, _⟩ := hws
  unfold entryNameBytes
  refine List.ext_getElem ?_ ?_
  · simp [List.length_replicate]
    omega
  · intro i h1 h2
    rw [List.getElem_map, List.getElem_range]
    have hi16 : i < 16 := by simpa using h1
    rw [readBuf_app, hrd]
    rw [show 2 * BlockSize + (0 + i) = 8192 + i from by simp only [BlockSize]; omega]
    rw [hnames i hi16]
    rw [List.getElem_append]
    by_cases hil : i < name.length
    · rw [dif_pos hil, if_pos hil]
      rw [List.getD_eq_getElem?_getD, List.getElem?_eq_getElem hil]
      rfl
    · rw [dif_neg hil, if_neg hil, List.getElem_replicate]

/-- Closing the written handle unregisters the name and changes nothing
else. -/
theorem fileClose_written (n : Nat) (name payload : List Nat) (k : Nat) (d : Disk)
    (hws : WrittenState n name payload k [name] d) (hne : name ≠ []) :
    fileClose d ⟨name, 0, payload.length, payload.length⟩
      = ({ d with openNames := some [] }, .ok ()) ∧
    WrittenState n name payload k [] { d with openNames := some [] } := by
  obtain ⟨hrd, hds, hdb, hfb, hop, hlink, heoc, hnames, hszf, hsbf, hdata⟩ := hws
  have hco : checkIsOpen d name = true := by
    unfold checkIsOpen
    rw [hop]
    simp
  constructor
  · unfold fileClose
    dsimp only
    rw [if_neg hne]
    rw [if_neg (show ¬ ¬ (checkIsOpen d name = true) by rw [hco]; simp)]
    rw [hop]
    dsimp only
    rw [show List.filter (fun x => x != name) [name] = [] from by simp]
  · exact ⟨hrd, hds, hdb, hfb, rfl, hlink, heoc, hnames, hszf, hsbf, hdata⟩

/-- `getU32` through a read buffer. -/
theorem getU32_readBuf (s : Store) (off j : Nat) :
    getU32 (readBuf s off) j = getU32 s.bytes (off + j) := by
  unfold getU32
  rw [readBuf_app, readBuf_app, readBuf_app, readBuf_app,
    show off + (j + 1) = off + j + 1 from by omega,
    show off + (j + 2) = off + j + 2 from by omega,
    show off + (j + 3) = off + j + 3 from by omega]

/-- `getU16` through a read buffer. -/
theorem getU16_readBuf (s : Store) (off j : Nat) :
    getU16 (readBuf s off) j = getU16 s.bytes (off + j) := by
  unfold getU16
  rw [readBuf_app, readBuf_app, show off + (j + 1) = off + j + 1 from by omega]

/-- Opening the written file hydrates the handle with size = payload length
and startBlock 0, and re-registers the name. -/
theorem open_written (n : Nat) (name payload : List Nat) (k : Nat) (d : Disk)
    (hws : WrittenState n name payload k [] d) (hne : name ≠ [])
    (hlen : name.length ≤ 16) (hz : ∀ b ∈ name, b ≠ 0) :
    Open d name
      = some ({ d with openNames := some [name] },
              .ok { name := name, desc := 0, offset := 0, size := payload.length }) ∧
    WrittenState n name payload k [name] { d with openNames := some [name] } := by
  have hname16 := entryNameBytes_written n name payload k [] d hws hlen
  obtain ⟨hrd, hds, hdb, hfb, hop, hlink, heoc, hnames, hszf, hsbf, hdata⟩ := hws
  have htrim : trimNulls (entryNameBytes (readBuf d.store (d.rootDirInd * BlockSize)) 0)
      = name := by
    rw [hname16]
    exact trimNulls_padded name _ hne hz
  have hco : checkIsOpen d name = false := by
    unfold checkIsOpen
    rw [hop]
    rfl
  have hload : loadRootEntry d { name := name, desc := 0, offset := 0, size := 0 }
      = .ok { name := name, desc := 0, offset := 0, size := payload.length } := by
    unfold loadRootEntry
    dsimp only
    rw [if_neg hne]
    rw [scanRootLoad_found _ _ 0 (BlockSize / 32) (by norm_num [BlockSize]) htrim]
    rw [getU32_readBuf, getU16_readBuf, hrd]
    rw [show 2 * BlockSize + (0 + 16) = 8208 from by norm_num [BlockSize]]
    rw [show 2 * BlockSize + (0 + 20) = 8212 from by norm_num [BlockSize]]
    rw [hszf, hsbf]
  constructor
  · unfold Open
    rw [if_neg (show ¬ (checkIsOpen d name = true) by rw [hco]; simp)]
    rw [hload]
    dsimp only
    rw [hop]
  · exact ⟨hrd, hds, hdb, hfb, rfl, hlink, heoc, hnames, hszf, hsbf, hdata⟩

/-- Reading the file's full size from the re-opened handle returns exactly
the payload. -/
theorem fileRead_written (n : Nat) (name payload : List Nat) (k : Nat) (d : Disk)
    (hws : WrittenState n name payload k [name] d)
    (hn : n ≤ 2048) (hk1 : 1 ≤ k) (hkn : k ≤ n) (hcap : payload.length ≤ k * 4096) :
    fileRead d ⟨name, 0, 0, payload.length⟩ payload.length
      = .ok (payload, ⟨name, 0, payload.length, payload.length⟩) := by
  obtain ⟨hrd, hds, hdb, hfb, hop, hlink, heoc, hnames, hszf, hsbf, hdata⟩ := hws
  unfold fileRead
  dsimp only
  by_cases hL0 : payload = []
  · subst hL0
    rw [if_pos (by simp)]
    rfl
  · have hL : 0 < payload.length := List.length_pos.mpr hL0
    rw [if_neg (show ¬ (min payload.length (payload.length - 0) = 0) by omega)]
    have hsb : entryStartBlock d 0 = 0 := by
      unfold entryStartBlock
      rw [hrd]
      exact hsbf
    rw [hsb]
    rw [followChain_chain d k hlink heoc (by omega) (by omega) (by omega)]
    dsimp only
    rw [if_neg (show ¬ ((List.range k).length ≤ 0 / BlockSize) by
      rw [List.length_range]
      simp only [BlockSize]
      omega)]
    rw [show min (min payload.length (payload.length - 0))
        ((List.range k).length * BlockSize - 0) = payload.length from by
      rw [List.length_range]
      simp only [BlockSize]
      omega]
    have hmap : (List.range payload.length).map (fun m =>
        d.store.bytes (dataByteAddr d ((List.range k).getD ((0 + m) / BlockSize) 0)
          ((0 + m) % BlockSize))) = payload := by
      refine List.ext_getElem (by simp) ?_
      intro i hi1 hi2
      rw [List.getElem_map, List.getElem_range]
      have him : i < payload.length := by simpa using hi1
      have hidiv : (0 + i) / BlockSize < k := by
        simp only [BlockSize]
        omega
      rw [show (List.range k).getD ((0 + i) / BlockSize) 0 = (0 + i) / BlockSize from by
        rw [List.getD_eq_getElem?_getD, List.getElem?_range hidiv]
        rfl]
      unfold dataByteAddr
      rw [hds]
      rw [show (3 + (0 + i) / BlockSize) * BlockSize + (0 + i) % BlockSize = 12288 + i from by
        simp only [BlockSize]
        omega]
      rw [hdata i him]
      rw [List.getD_eq_getElem?_getD, List.getElem?_eq_getElem him]
      rfl
    rw [hmap]
    simp only [Nat.zero_add]

/-- C1: on a fresh volume of `n` data blocks (`1 ≤ n ≤ 2048`, a single FAT
block), for every filename (non-empty, at most 16 bytes, no zero bytes) and
every byte payload fitting the volume (`length ≤ n * 4096`, covering both
payloads smaller than one block and payloads spanning several blocks, e.g.
`4096*3+17` bytes on `n ≥ 4`), the sequence `Create`, `Write` of the payload,
`Close`, `Open`, then `Read` of the file's full size returns exactly the
written bytes.  `Create`/`Open` are the source functions; the file engine is
modelled from the spec (its source is not part of src/). -/
theorem create_write_close_open_read_roundtrip (n : Nat) (name payload : List Nat)
    (hn1 : 1 ≤ n) (hn2 : n ≤ 2048) (hne : name ≠ []) (hlen : name.length ≤ 16)
    (hz : ∀ b ∈ name, b ≠ 0) (hcap : payload.length ≤ n * 4096) :
    roundTrip n name payload = some (.ok payload) := by
  unfold roundTrip
  rw [show New [116] n = .ok (freshVol n) from rfl]
  dsimp only
  rw [create_on_fresh n name hn1 hn2 hlen]
  dsimp only
  obtain ⟨d2, k, hfw, hk1, hkn, hkcap, hws⟩ := fileWrite_stage1 n name payload hn1 hn2 hlen hcap
  rw [hfw]
  dsimp only
  obtain ⟨hcl, hws2⟩ := fileClose_written n name payload k d2 hws hne
  rw [hcl]
  dsimp only
  obtain ⟨hopn, hws3⟩ := open_written n name payload k _ hws2 hne hlen hz
  rw [hopn]
  dsimp only
  rw [fileRead_written n name payload k _ hws3 hn2 hk1 hkn hkcap]

/-- C1 witness: the round trip at a concrete input — a 1-block volume, the
one-byte name `"a"`, and the payload `[5, 6, 7]` — returns exactly the
payload. -/
theorem create_write_close_open_read_roundtrip_w :
    roundTrip 1 [97] [5, 6, 7] = some (.ok [5, 6, 7]) :=
  create_write_close_open_read_roundtrip 1 [97] [5, 6, 7] (by decide) (by decide)
    (by decide) (by decide) (by decide) (by decide)

end GoFat
